import Mathlib

/-!
# gnc-balcheck: credential loader, account resolver and ledger aggregator

A shallow embedding of `src/gnc_balcheck.c`:

* `parse_credentials_file` (the credential loader),
* `gnc_get_account_guid` (the account resolver),
* `gnc_get_account_balance` (the ledger aggregator),
* the part of `main` that follows option parsing.

Conventions of the embedding.

* C strings are lists of characters; a `char` buffer is a list of characters and a
  C string inside it ends at the first NUL.
* The operating system and the MySQL client library are parameters: what `stat`,
  `fopen` and `fread` deliver, and what result set a query yields.
* Machine integers are `Int`/`Nat` with explicit reduction: `int` is 32 bits wide,
  `long`, `off_t` and `my_ulonglong` are 64 bits wide (LP64), and a narrowing
  conversion to `int` keeps the value modulo `2^32`.
* `float` and `double` are IEEE 754 binary32 and binary64 with round-to-nearest-even,
  expressions being evaluated in the precision of their type.  A finite floating-point
  value is the rational number it denotes.  The operands of this program are 32-bit
  integers, so no quotient or sum leaves the range of normal numbers and no infinity,
  NaN or negative zero arises; rounding is therefore modelled with an unbounded
  exponent.
-/

namespace GncBalcheck

/-! ## Machine integers -/

/-- Conversion of an integer value to the 32-bit `int`: the value modulo `2^32`
in the range `[-2^31, 2^31)`. -/
def toInt32 (x : Int) : Int :=
  (x + 2147483648) % 4294967296 - 2147483648

/-- Value returned by `strtol(s, NULL, 10)` for a column whose text denotes the
integer `v`: the value itself, saturated to the range of `long`. -/
def strtol (v : Int) : Int :=
  if v < -9223372036854775808 then -9223372036854775808
  else if 9223372036854775807 < v then 9223372036854775807
  else v

/-- The `(int) row_cnt` conversion of a `my_ulonglong`. -/
def rowCntToInt (row_cnt : Nat) : Int :=
  toInt32 ((row_cnt % 18446744073709551616 : Nat) : Int)

/-! ## Floating point -/

/-- Nearest integer, ties to the even one. -/
def roundHalfEven (m : ℚ) : Int :=
  let f : Int := ⌊m⌋
  let d : ℚ := m - f
  if d < 1 / 2 then f
  else if 1 / 2 < d then f + 1
  else if f % 2 = 0 then f else f + 1

/-- Round a rational to the nearest number with a `p`-bit significand
(round-to-nearest-even, unbounded exponent). -/
def roundToPrec (p : Nat) (x : ℚ) : ℚ :=
  if x = 0 then 0
  else
    let ulp : ℚ := (2 : ℚ) ^ (Int.log 2 |x| - ((p : Int) - 1))
    (roundHalfEven (x / ulp) : ℚ) * ulp

/-- Rounding to `float` (24-bit significand). -/
def toFloat (x : ℚ) : ℚ := roundToPrec 24 x

/-- Rounding to `double` (53-bit significand). -/
def toDouble (x : ℚ) : ℚ := roundToPrec 53 x

/-- The expression `(float) num / (float) denom`: both operands are converted to
`float` and the quotient is rounded to `float`.  Only used with `denom > 0`. -/
def floatQuot (num denom : Int) : ℚ :=
  toFloat (toFloat (num : ℚ) / toFloat (denom : ℚ))

/-- The statement `bal += tmp` on doubles (`tmp` holds a `float` value, which
every `double` represents exactly). -/
def doubleAdd (bal tmp : ℚ) : ℚ := toDouble (bal + tmp)

/-! ## The MySQL client library -/

/-- A stored result set: the row count `mysql_num_rows` reports and the rows that
successive `mysql_fetch_row` calls deliver (a call past the last one yields `NULL`). -/
structure MysqlRes (α : Type) where
  num_rows : Nat
  rows : List α

/-- A row of `SELECT name,guid FROM accounts WHERE name = ...`. -/
structure AccountRow where
  name : String
  guid : String
deriving DecidableEq, Repr

/-- A row of the splits/transactions query.  `value_num` and `value_denom` are the
integers denoted by the text of the first two columns. -/
structure SplitRow where
  value_num : Int
  value_denom : Int
  enter_date : String
  description : String
deriving DecidableEq, Repr

/-- A connection: for each of the two queries, the stored result, or `none` when
`mysql_query` or `mysql_store_result` fails. -/
structure Connection where
  accounts : String → Option (MysqlRes AccountRow)
  splits : String → Option (MysqlRes SplitRow)

/-! ## `gnc_get_account_guid` -/

/-- The exits of `gnc_get_account_guid` that return `NULL`, one per diagnostic. -/
inductive GuidError where
  /-- "Failed to lookup acccount": the query or the store of its result failed. -/
  | lookupFailed
  /-- "Unable to find account": `row_cnt == 0`. -/
  | notFound
  /-- "Duplicate row data returned": `row_cnt > 1`, with the row count. -/
  | duplicate (row_cnt : Nat)
  /-- "Failed to fetch account info": `mysql_fetch_row` returned `NULL`. -/
  | fetchFailed
deriving DecidableEq, Repr

/-- Embedding of `gnc_get_account_guid`: the copied guid, or the exit taken.  The copy
made by `strdup` is taken to succeed. -/
def gnc_get_account_guid (con : Connection) (accnt_name : String) :
    Except GuidError String :=
  match con.accounts accnt_name with
  | none => .error .lookupFailed
  | some result =>
    let row_cnt := result.num_rows
    if row_cnt = 0 then .error .notFound
    else if row_cnt > 1 then .error (.duplicate row_cnt)
    else
      match result.rows with
      | [] => .error .fetchFailed
      | row :: _ => .ok row.guid

/-! ## `gnc_get_account_balance` -/

/-- The exits of `gnc_get_account_balance` that return `-1`. -/
inductive BalanceError where
  /-- The guid lookup returned `NULL`. -/
  | noGuid (e : GuidError)
  /-- "Failed to get transactions": the query or the store of its result failed. -/
  | queryFailed
  /-- "Premature end to result data (i/row_cnt)". -/
  | prematureEnd (i : Int) (row_cnt : Nat)
  /-- "Invalid denom (denom) in result data row (i/row_cnt)". -/
  | invalidDenom (denom : Int) (i : Int) (row_cnt : Nat)
deriving DecidableEq, Repr

/-- The value of `num` after `num = strtol(r[0], NULL, 10)`: the `long` result
stored in an `int`. -/
def SplitRow.num (r : SplitRow) : Int := toInt32 (strtol r.value_num)

/-- The value of `denom` after `denom = strtol(r[1], NULL, 10)`. -/
def SplitRow.denom (r : SplitRow) : Int := toInt32 (strtol r.value_denom)

/-- The `for` loop of `gnc_get_account_balance`.  `todo` is the number of iterations
left (`(int) row_cnt - i` when positive), `i` the loop counter, `cursor` the rows not
yet fetched and `bal` the accumulator. -/
def balanceLoop (row_cnt : Nat) : Nat → Int → List SplitRow → ℚ → Except BalanceError ℚ
  | 0, _, _, bal => .ok bal
  | todo + 1, i, cursor, bal =>
    match cursor with
    | [] => .error (.prematureEnd i row_cnt)
    | r :: rest =>
      let num : Int := r.num
      let denom : Int := r.denom
      if denom ≤ 0 then .error (.invalidDenom denom i row_cnt)
      else
        let tmp : ℚ := floatQuot num denom
        balanceLoop row_cnt todo (i + 1) rest (doubleAdd bal tmp)

/-- The body of `gnc_get_account_balance` as a computation of the final `bal`. -/
def computeBalance (con : Connection) (accnt_name : String) : Except BalanceError ℚ :=
  match gnc_get_account_guid con accnt_name with
  | .error e => .error (.noGuid e)
  | .ok accnt_guid =>
    match con.splits accnt_guid with
    | none => .error .queryFailed
    | some result =>
      let row_cnt := result.num_rows
      balanceLoop row_cnt (rowCntToInt row_cnt).toNat 0 result.rows 0

/-- What a call of `gnc_get_account_balance` leaves behind: the return value, the
content of the caller's `*balance`, and the exit taken on failure. -/
structure BalanceOutcome where
  ret : Int
  balance : ℚ
  error : Option BalanceError
deriving DecidableEq

/-- Embedding of `gnc_get_account_balance`.  `balance` is the value `*balance` holds
on entry; it is overwritten on the successful exit only. -/
def gnc_get_account_balance (con : Connection) (accnt_name : String) (balance : ℚ) :
    BalanceOutcome :=
  match computeBalance con accnt_name with
  | .ok bal => { ret := 0, balance := bal, error := none }
  | .error e => { ret := -1, balance := balance, error := some e }

/-! ## `parse_credentials_file` -/

/-- The file-type mask `S_IFMT` of `<sys/stat.h>`. -/
def S_IFMT : Nat := 0o170000

/-- The file type `S_IFREG` (regular file). -/
def S_IFREG : Nat := 0o100000

/-- The owner-read permission bit `S_IRUSR`. -/
def S_IRUSR : Nat := 0o400

/-- The fields of `struct stat` the loader looks at: `st_mode` (a 32-bit `mode_t`)
and `st_size` (a signed `off_t`). -/
structure Stat where
  st_mode : Nat
  st_size : Int
deriving DecidableEq, Repr

/-- What the file system holds at a path: the result of `stat` (`none` when it fails),
whether `fopen(path, "r")` succeeds, and the bytes a read delivers. -/
structure FileState where
  stat : Option Stat
  fopen_ok : Bool
  content : List Char
deriving DecidableEq

/-- The macro `S_ISREG`. -/
def S_ISREG (m : Nat) : Bool := m &&& S_IFMT == S_IFREG

/-- The C expression `sb.st_mode & ~(S_IRUSR | S_IFMT)`, the complement being taken
in 32 bits. -/
def modeExtraBits (st_mode : Nat) : Nat :=
  st_mode % 4294967296 &&& (4294967295 - (S_IRUSR ||| S_IFMT))

/-- The system calls of interest, in the order they are made. -/
inductive Syscall where
  | stat (path : String)
  | fopen (path : String)
  | fread
  | fclose
deriving DecidableEq, Repr

/-- The exits of `parse_credentials_file` that return `-1`. -/
inductive CredError where
  /-- The path is `NULL`. -/
  | nullPath
  /-- "Failed to stat() credentials file". -/
  | statFailed
  /-- "Invalid file type or size exceeds permitted limit". -/
  | invalidTypeOrSize
  /-- "Invalid mode on credentials file, must be 0400". -/
  | invalidMode
  /-- "Failed to open credentials file". -/
  | openFailed
  /-- "Failed to read from credentials file". -/
  | readFailed
  /-- "Missing separator in credentials file". -/
  | missingSeparator
deriving DecidableEq, Repr

/-- The C string that starts at offset `off` of a buffer: the characters up to the
first NUL. -/
def cstr (buf : List Char) (off : Nat) : List Char :=
  (buf.drop off).takeWhile (fun c => c != '\x00')

/-- The call `strstr(buffer, ":")`: the offset of the first `:` of the C string at the
start of the buffer, or `none` (`NULL`). -/
def strstrColon (buf : List Char) : Option Nat :=
  let s := cstr buf 0
  if s.indexOf ':' < s.length then some (s.indexOf ':') else none

/-- The call `fread(buffer, sizeof(char), sizeof(buffer)-1, infile)` on a freshly opened
file: the number of bytes read, at most 1023, and the buffer after the call. -/
def freadBuffer (content buffer : List Char) : Nat × List Char :=
  let rd := min content.length 1023
  (rd, content.take rd ++ buffer.drop rd)

/-- What a call of `parse_credentials_file` leaves behind: the return value, the
strings stored through `username` and `passwd` (`none` when nothing is stored), the
system calls made, and the exit taken on failure. -/
structure CredOutcome where
  ret : Int
  username : Option (List Char)
  passwd : Option (List Char)
  trace : List Syscall
  error : Option CredError
deriving DecidableEq

/-- A failing exit: nothing is stored through the out-parameters. -/
def CredOutcome.fail (trace : List Syscall) (e : CredError) : CredOutcome :=
  { ret := -1, username := none, passwd := none, trace := trace, error := some e }

/-- Embedding of `parse_credentials_file`.  `fs` is the file system, `buffer` the
content of the static 1024-byte buffer on entry, `filepath` the path (`none` for
`NULL`), and `username`, `passwd` tell whether the out-pointers are non-null. -/
def parse_credentials_file (fs : String → FileState) (buffer : List Char)
    (filepath : Option String) (username passwd : Bool) : CredOutcome :=
  match filepath with
  | none => .fail [] .nullPath
  | some path =>
    match (fs path).stat with
    | none => .fail [.stat path] .statFailed
    | some sb =>
      if !S_ISREG sb.st_mode || sb.st_size < 1 || sb.st_size ≥ 1024 then
        .fail [.stat path] .invalidTypeOrSize
      else if modeExtraBits sb.st_mode ≠ 0 then
        .fail [.stat path] .invalidMode
      else if !(fs path).fopen_ok then
        .fail [.stat path, .fopen path] .openFailed
      else
        let (rd, buffer1) := freadBuffer (fs path).content buffer
        if rd < 1 then
          .fail [.stat path, .fopen path, .fread, .fclose] .readFailed
        else
          let buffer2 := buffer1.set (rd - 1) '\x00'
          match strstrColon buffer2 with
          | none => .fail [.stat path, .fopen path, .fread, .fclose] .missingSeparator
          | some pw =>
            let buffer3 := buffer2.set pw '\x00'
            { ret := 0
              username := if username then some (cstr buffer3 0) else none
              passwd := if passwd then some (cstr buffer3 (pw + 1)) else none
              trace := [.stat path, .fopen path, .fread, .fclose]
              error := none }

/-! ## `main`, after option parsing -/

/-- The output modes. -/
inductive output_mode where
  | OUTPUT_MODE_DEFAULT
  | OUTPUT_MODE_NONE
  | OUTPUT_MODE_RAW
  | OUTPUT_MODE_SCRIPT
deriving DecidableEq, Repr

/-- The options as option parsing leaves them; a field is `none` when the pointer is
`NULL`. -/
structure program_options where
  db_host : String
  db_user : Option (List Char)
  db_passwd : Option (List Char)
  db_dbase : String
  outfile : Option String
  creds_file : Option String
  omode : output_mode
deriving DecidableEq

/-- Everything outside the program that `main` depends on. -/
structure World where
  /-- The file system seen by the credential loader. -/
  fs : String → FileState
  /-- The content of the loader's static buffer at program start. -/
  buffer : List Char
  /-- Whether `fopen(outfile, "w")` succeeds. -/
  outfile_ok : String → Bool
  /-- Whether `mysql_init` succeeds. -/
  mysql_init_ok : Bool
  /-- The call `mysql_real_connect` with host, user, password and database: the
  connection, or `none` when it fails. -/
  connect : String → List Char → List Char → String → Option Connection

/-- The observable steps of `main`. -/
inductive Event where
  /-- A system call made by the credential loader. -/
  | loader (c : Syscall)
  /-- The call `usage(EXIT_FAILURE, "Missing ... for database")`. -/
  | usageMissing (username passwd : Bool)
  /-- The call `mysql_real_connect` and its arguments. -/
  | mysql_real_connect (host : String) (user passwd : List Char) (dbase : String)
  /-- The result record written to the output. -/
  | report (omode : output_mode) (accnt_name : String) (balance : ℚ)
deriving DecidableEq

/-- The value `EXIT_SUCCESS`. -/
def EXIT_SUCCESS : Int := 0

/-- The value `EXIT_FAILURE`. -/
def EXIT_FAILURE : Int := 1

/-- Lines 335-353 of `main`: the credentials file is consulted when one is given and
the command line lacks a user name or a password.  The result is the pair
`opts.db_user`, `opts.db_passwd` afterwards, or the exit status when the program exits
here, and the steps made. -/
def mainCredentials (w : World) (opts : program_options) :
    Except Int (List Char × List Char) × List Event :=
  let afterFile : Except Int (Option (List Char) × Option (List Char)) × List Event :=
    match opts.creds_file with
    | none => (.ok (opts.db_user, opts.db_passwd), [])
    | some path =>
      if opts.db_user.isSome && opts.db_passwd.isSome then
        (.ok (opts.db_user, opts.db_passwd), [])
      else
        let r := parse_credentials_file w.fs w.buffer (some path)
          (!opts.db_user.isSome) (!opts.db_passwd.isSome)
        if r.ret ≠ 0 then (.error EXIT_FAILURE, r.trace.map Event.loader)
        else
          (.ok (if opts.db_user.isSome then opts.db_user else r.username,
                if opts.db_passwd.isSome then opts.db_passwd else r.passwd),
            r.trace.map Event.loader)
  match afterFile with
  | (.error code, tr) => (.error code, tr)
  | (.ok (some db_user, some db_passwd), tr) => (.ok (db_user, db_passwd), tr)
  | (.ok (db_user, db_passwd), tr) =>
    (.error EXIT_FAILURE, tr ++ [Event.usageMissing (!db_user.isSome) (!db_passwd.isSome)])

/-- Lines 355-421 of `main`: output file, connection, balance and report, with the
user name and password settled.  The result is the exit status and the steps made. -/
def mainRun (w : World) (opts : program_options) (db_user db_passwd : List Char)
    (accnt_name : String) : Int × List Event :=
  if (match opts.outfile with | some f => !w.outfile_ok f | none => false) then
    (EXIT_FAILURE, [])
  else if !w.mysql_init_ok then (EXIT_FAILURE, [])
  else
    let ev := Event.mysql_real_connect opts.db_host db_user db_passwd opts.db_dbase
    match w.connect opts.db_host db_user db_passwd opts.db_dbase with
    | none => (EXIT_FAILURE, [ev])
    | some con =>
      let r := gnc_get_account_balance con accnt_name 0
      if r.ret ≠ 0 then (EXIT_FAILURE, [ev])
      else
        match opts.omode with
        | .OUTPUT_MODE_NONE => (EXIT_SUCCESS, [ev])
        | m => (EXIT_SUCCESS, [ev, Event.report m accnt_name r.balance])

/-- Embedding of `main` from line 330 on: exit status and the steps made. -/
def main (w : World) (opts : program_options) (accnt_name : String) : Int × List Event :=
  match mainCredentials w opts with
  | (.error code, tr) => (code, tr)
  | (.ok (db_user, db_passwd), tr) =>
    let (code, tr2) := mainRun w opts db_user db_passwd accnt_name
    (code, tr ++ tr2)

/-- Whether a step is a connection attempt. -/
def Event.isConnect : Event → Bool
  | .mysql_real_connect _ _ _ _ => true
  | _ => false

/-! ## Vocabulary of the statements -/

/-- The content `c` is what the loader reads at `path`: the file passes the metadata
checks of lines 68-74, opens, and delivers `c`. -/
def Loadable (fs : String → FileState) (path : String) (c : List Char) : Prop :=
  ∃ sb, (fs path).stat = some sb ∧ S_ISREG sb.st_mode = true ∧ 1 ≤ sb.st_size ∧
    sb.st_size < 1024 ∧ modeExtraBits sb.st_mode = 0 ∧
    (fs path).fopen_ok = true ∧ (fs path).content = c

/-- A file system whose every path holds a readable file with the given metadata and
content. -/
def fileWith (sb : Stat) (content : List Char) : String → FileState :=
  fun _ => { stat := some sb, fopen_ok := true, content := content }

/-- The value `tmp` the loop computes for a row. -/
def SplitRow.value (r : SplitRow) : ℚ := floatQuot r.num r.denom

/-- The accumulation `bal += tmp` over rows in the fetched order. -/
def accumulate (bal : ℚ) (rows : List SplitRow) : ℚ :=
  rows.foldl (fun b r => doubleAdd b r.value) bal

/-- A row whose two numeric columns fit the 32-bit `int` they are stored in. -/
def SplitRow.fitsInt (r : SplitRow) : Prop :=
  -2147483648 ≤ r.value_num ∧ r.value_num ≤ 2147483647 ∧
  -2147483648 ≤ r.value_denom ∧ r.value_denom ≤ 2147483647

/-- A connection on which the account `accnt_name` resolves to `guid` and the splits
query for `guid` yields the result `res`. -/
def Serves (con : Connection) (accnt_name guid : String) (res : MysqlRes SplitRow) : Prop :=
  gnc_get_account_guid con accnt_name = .ok guid ∧ con.splits guid = some res

/-- A connection on which every account name resolves to the guid "g" and the splits
query yields `res`. -/
def ledgerOf (res : MysqlRes SplitRow) : Connection :=
  { accounts := fun n => some { num_rows := 1, rows := [{ name := n, guid := "g" }] }
    splits := fun _ => some res }

/-- A split row with the given numerator and denominator. -/
def split (num denom : Int) : SplitRow :=
  { value_num := num, value_denom := denom, enter_date := "", description := "" }

/-- The rational `x` is a multiple of `2^(-g)`. -/
def Dyadic (g : Nat) (x : ℚ) : Prop := ∃ k : Int, x = (k : ℚ) / 2 ^ g

/-- The double accumulator holds every sum of the row values exactly: the values are
multiples of `2^(-g)` and their magnitudes add up to less than `2^(53-g)`. -/
def SumsExact (g : Nat) (rows : List SplitRow) : Prop :=
  (∀ r ∈ rows, Dyadic g r.value) ∧ (rows.map fun r => |r.value|).sum * 2 ^ g < 2 ^ 53

/-- A world whose credentials file "creds" holds "alice:s3cret\n" with mode 0400 and
whose database server refuses connections. -/
def sampleWorld : World :=
  { fs := fileWith ⟨0o100400, 13⟩ "alice:s3cret\n".toList
    buffer := []
    outfile_ok := fun _ => true
    mysql_init_ok := true
    connect := fun _ _ _ _ => none }

/-- Options with the given user name and password, the credentials file "creds" and
defaults elsewhere. -/
def sampleOpts (db_user db_passwd : Option (List Char)) : program_options :=
  { db_host := "localhost", db_user := db_user, db_passwd := db_passwd,
    db_dbase := "gnucash", outfile := none, creds_file := some "creds",
    omode := .OUTPUT_MODE_DEFAULT }

/-! ## The account resolver -/

/-- C6. On a successful catalog query, `gnc_get_account_guid` returns an identifier
exactly when the result reports one row and delivers it, and the identifier is the guid
column of that row; a result of zero rows fails with "Unable to find account"
(AccountNotFound) and a result of two or more rows fails with "Duplicate row data"
(AccountAmbiguous), no row being fetched.  For a result that delivers as many rows as it
reports, an identifier is returned exactly when there is one row. -/
theorem resolve_unique (con : Connection) (accnt_name : String)
    (result : MysqlRes AccountRow) (hq : con.accounts accnt_name = some result) :
    (∀ g, gnc_get_account_guid con accnt_name = .ok g ↔
        result.num_rows = 1 ∧ ∃ row rest, result.rows = row :: rest ∧ row.guid = g) ∧
    (∀ row, result.num_rows = 1 → result.rows = [row] →
        gnc_get_account_guid con accnt_name = .ok row.guid) ∧
    (result.num_rows = 0 → gnc_get_account_guid con accnt_name = .error .notFound) ∧
    (2 ≤ result.num_rows →
        gnc_get_account_guid con accnt_name = .error (.duplicate result.num_rows)) ∧
    (result.rows.length = result.num_rows →
        ((∃ g, gnc_get_account_guid con accnt_name = .ok g) ↔ result.rows.length = 1)) := by
  obtain ⟨n, rows⟩ := result
  simp only [gnc_get_account_guid, hq]
  refine ⟨?_, ?_, ?_, ?_, ?_⟩
  · intro g
    by_cases h0 : n = 0
    · simp [h0]
    · by_cases h1 : n > 1
      · simp [h0, h1]; omega
      · have : n = 1 := by omega
        subst this
        cases rows with
        | nil => simp
        | cons r rs => simp
  · intro row hn hr
    subst hn; subst hr
    simp
  · intro hn
    simp [hn]
  · intro hn
    have h0 : n ≠ 0 := by omega
    have h1 : n > 1 := by omega
    simp [h0, h1]
  · intro hlen
    subst hlen
    cases rows with
    | nil => simp
    | cons r rs =>
      cases rs with
      | nil => simp
      | cons r2 rs2 => simp

/-- Witness of C6: a catalog with one row for the account. -/
theorem resolve_unique_witness :
    gnc_get_account_guid (ledgerOf { num_rows := 0, rows := [] }) "Assets" = .ok "g" :=
  ((resolve_unique (ledgerOf { num_rows := 0, rows := [] }) "Assets"
      { num_rows := 1, rows := [{ name := "Assets", guid := "g" }] } rfl).2.1
    { name := "Assets", guid := "g" } rfl rfl)

/-! ## The credential loader: metadata checks -/

/-- Every bit of a 32-bit mode other than the owner-read bit (bit 8) and the file-type
bits (bits 12 to 15) is kept by the mask of `modeExtraBits`. -/
theorem modeExtraBits_ne_zero (m i : Nat) (hi : i < 32) (h8 : i ≠ 8)
    (hft : ¬ (12 ≤ i ∧ i ≤ 15)) (hbit : m.testBit i = true) : modeExtraBits m ≠ 0 := by
  intro h0
  have hz : (modeExtraBits m).testBit i = false := by rw [h0]; simp
  have hmask : (4294967295 - (S_IRUSR ||| S_IFMT)).testBit i = true := by
    interval_cases i <;> first | omega | decide
  have hmod : (m % 4294967296).testBit i = m.testBit i := by
    have : (4294967296 : Nat) = 2 ^ 32 := by norm_num
    rw [this, Nat.testBit_mod_two_pow]
    simp [hi]
  rw [modeExtraBits, Nat.testBit_and, hmod, hbit, hmask] at hz
  simp at hz

/-- C2. When `stat` reports a file that is not regular, or whose size is 0 or at least
1024, or whose mode has a bit set other than the owner-read bit and the file-type bits,
`parse_credentials_file` returns -1 through one of the two metadata diagnostics
(CredentialsInvalid), stores nothing, and `stat` is the only system call it makes: the
file is neither opened nor read, whatever its content. -/
theorem gate_rejects (fs : String → FileState) (buffer : List Char) (path : String)
    (sb : Stat) (username passwd : Bool) (hstat : (fs path).stat = some sb)
    (hbad : S_ISREG sb.st_mode = false ∨ sb.st_size = 0 ∨ 1024 ≤ sb.st_size ∨
      ∃ i, i < 32 ∧ i ≠ 8 ∧ ¬ (12 ≤ i ∧ i ≤ 15) ∧ sb.st_mode.testBit i = true) :
    (parse_credentials_file fs buffer (some path) username passwd).ret = -1 ∧
    ((parse_credentials_file fs buffer (some path) username passwd).error
        = some .invalidTypeOrSize ∨
      (parse_credentials_file fs buffer (some path) username passwd).error
        = some .invalidMode) ∧
    (parse_credentials_file fs buffer (some path) username passwd).trace = [.stat path] ∧
    (parse_credentials_file fs buffer (some path) username passwd).username = none ∧
    (parse_credentials_file fs buffer (some path) username passwd).passwd = none := by
  simp only [parse_credentials_file, hstat]
  by_cases hts : (!S_ISREG sb.st_mode || decide (sb.st_size < 1) ||
      decide (sb.st_size ≥ 1024)) = true
  · simp [hts, CredOutcome.fail]
  · have hm : modeExtraBits sb.st_mode ≠ 0 := by
      rcases hbad with h | h | h | ⟨i, hi, h8, hft, hbit⟩
      · simp [h] at hts
      · simp [h] at hts
      · exfalso; apply hts; simp; omega
      · exact modeExtraBits_ne_zero _ i hi h8 hft hbit
    simp [hts, hm, CredOutcome.fail]

/-- Witness of C2: a regular file of 13 bytes with mode 0440 (group-read set). -/
theorem gate_rejects_witness :
    (parse_credentials_file (fileWith ⟨0o100440, 13⟩ "alice:s3cret\n".toList) []
        (some "creds") true true).ret = -1 ∧
    ((parse_credentials_file (fileWith ⟨0o100440, 13⟩ "alice:s3cret\n".toList) []
        (some "creds") true true).error = some .invalidTypeOrSize ∨
      (parse_credentials_file (fileWith ⟨0o100440, 13⟩ "alice:s3cret\n".toList) []
        (some "creds") true true).error = some .invalidMode) ∧
    (parse_credentials_file (fileWith ⟨0o100440, 13⟩ "alice:s3cret\n".toList) []
        (some "creds") true true).trace = [.stat "creds"] ∧
    (parse_credentials_file (fileWith ⟨0o100440, 13⟩ "alice:s3cret\n".toList) []
        (some "creds") true true).username = none ∧
    (parse_credentials_file (fileWith ⟨0o100440, 13⟩ "alice:s3cret\n".toList) []
        (some "creds") true true).passwd = none :=
  gate_rejects (fileWith ⟨0o100440, 13⟩ "alice:s3cret\n".toList) [] "creds"
    ⟨0o100440, 13⟩ true true rfl
    (Or.inr (Or.inr (Or.inr ⟨5, by decide, by decide, by decide, by decide⟩)))

/-- C3, evaluated where the code departs from it.  A regular file of 13 bytes whose
permission bits are all clear (mode 0000, the owner-read bit not set) passes both
metadata checks: the loader goes on to `fopen` and `fread` and returns the parsed pair. -/
theorem gate_accepts_mode_0000 :
    modeExtraBits 0o100000 = 0 ∧ (0o100000 : Nat).testBit 8 = false ∧
    parse_credentials_file (fileWith ⟨0o100000, 13⟩ "alice:s3cret\n".toList) []
        (some "creds") true true =
      { ret := 0, username := some "alice".toList, passwd := some "s3cret".toList,
        trace := [.stat "creds", .fopen "creds", .fread, .fclose], error := none } := by
  decide

/-! ## Credential precedence in `main` -/

/-- The out-pointer flags only select which of the two strings are stored: return
value, system calls and exit are those of the call with both pointers non-null. -/
theorem parse_credentials_file_flags (fs : String → FileState) (buffer : List Char)
    (filepath : Option String) (username passwd : Bool) :
    parse_credentials_file fs buffer filepath username passwd =
      { parse_credentials_file fs buffer filepath true true with
        username := if username then
            (parse_credentials_file fs buffer filepath true true).username else none
        passwd := if passwd then
            (parse_credentials_file fs buffer filepath true true).passwd else none } := by
  unfold parse_credentials_file
  cases filepath with
  | none => simp [CredOutcome.fail]
  | some path =>
    simp only
    cases (fs path).stat with
    | none => simp [CredOutcome.fail]
    | some sb =>
      simp only
      split
      · simp [CredOutcome.fail]
      · split
        · simp [CredOutcome.fail]
        · split
          · simp [CredOutcome.fail]
          · split
            · simp [CredOutcome.fail]
            · split
              · simp [CredOutcome.fail]
              · simp

/-- C7. Credential precedence of `main`.  (1) With user name and password both supplied,
the loader is not called (no system call of it is made) and both values are kept.
(2) With exactly one supplied and a credentials file on which the loader succeeds with
the pair `(u', s')`, the supplied value is kept and the missing one is taken from the
pair.  (3) With at least one missing and a failing loader, `main` exits with
`EXIT_FAILURE` and makes no connection attempt. -/
theorem credential_precedence (w : World) (opts : program_options) (accnt_name : String) :
    (∀ u p, opts.db_user = some u → opts.db_passwd = some p →
        mainCredentials w opts = (.ok (u, p), [])) ∧
    (∀ path u' s', opts.creds_file = some path →
        (parse_credentials_file w.fs w.buffer (some path) true true).ret = 0 →
        (parse_credentials_file w.fs w.buffer (some path) true true).username = some u' →
        (parse_credentials_file w.fs w.buffer (some path) true true).passwd = some s' →
        (∀ u, opts.db_user = some u → opts.db_passwd = none →
            (mainCredentials w opts).1 = .ok (u, s')) ∧
        (∀ p, opts.db_user = none → opts.db_passwd = some p →
            (mainCredentials w opts).1 = .ok (u', p))) ∧
    ((opts.db_user = none ∨ opts.db_passwd = none) →
        (parse_credentials_file w.fs w.buffer opts.creds_file true true).ret ≠ 0 →
        (main w opts accnt_name).1 = EXIT_FAILURE ∧
        ∀ e ∈ (main w opts accnt_name).2, e.isConnect = false) := by
  refine ⟨?_, ?_, ?_⟩
  · intro u p hu hp
    unfold mainCredentials
    cases hc : opts.creds_file <;> simp [hu, hp]
  · intro path u' s' hc hret huser hpass
    constructor
    · intro u hu hp
      simp only [mainCredentials, hc, hu, hp]
      rw [parse_credentials_file_flags]
      simp [hret, hpass]
    · intro p hu hp
      simp only [mainCredentials, hc, hu, hp]
      rw [parse_credentials_file_flags]
      simp [hret, huser]
  · intro hmiss hfail
    have key : ∃ tr, mainCredentials w opts = (.error EXIT_FAILURE, tr) ∧
        ∀ e ∈ tr, e.isConnect = false := by
      unfold mainCredentials
      cases hc : opts.creds_file with
      | none =>
        rcases hmiss with h | h
        · cases hp : opts.db_passwd <;> simp [h, Event.isConnect]
        · cases hu : opts.db_user <;> simp [h, Event.isConnect]
      | some path =>
        rw [hc] at hfail
        have hboth : (opts.db_user.isSome && opts.db_passwd.isSome) = false := by
          rcases hmiss with h | h <;> simp [h]
        simp only [hboth]
        rw [parse_credentials_file_flags]
        simp [hfail, Event.isConnect]
    obtain ⟨tr, htr, hno⟩ := key
    simp only [main, htr]
    exact ⟨trivial, hno⟩


/-- Witness of C7: the user name "bob" is given on the command line, the password is
missing and the credentials file holds "alice:s3cret\n"; the user name stays "bob" and
the password becomes "s3cret". -/
theorem credential_precedence_witness :
    (mainCredentials sampleWorld (sampleOpts (some "bob".toList) none)).1 =
      .ok ("bob".toList, "s3cret".toList) :=
  ((credential_precedence sampleWorld (sampleOpts (some "bob".toList) none) "Assets").2.1
    "creds" "alice".toList "s3cret".toList rfl (by decide) (by decide) (by decide)).1
    "bob".toList rfl rfl

/-! ## The credential loader: parsing -/

/-- A C string that is followed by a NUL ends there. -/
theorem takeWhile_nul (a rest : List Char) (h : '\x00' ∉ a) :
    (a ++ '\x00' :: rest).takeWhile (fun c => c != '\x00') = a := by
  induction a with
  | nil => simp
  | cons x xs ih =>
    have hx : x ≠ '\x00' := fun e => h (by simp [e])
    have hxs : '\x00' ∉ xs := fun e => h (by simp [e])
    have hb : (x != '\x00') = true := by simpa using hx
    rw [List.cons_append, List.takeWhile_cons, hb]
    simp [ih hxs]

/-- Overwriting the byte that follows the first `a.length` bytes. -/
theorem set_after (a rest : List Char) (x y : Char) :
    (a ++ x :: rest).set a.length y = a ++ y :: rest := by
  induction a with
  | nil => simp
  | cons z zs ih => simp [ih]

/-- A list that contains `:` splits at its first `:`. -/
theorem split_first_colon (d : List Char) (h : ':' ∈ d) :
    d.indexOf ':' < d.length ∧ ':' ∉ d.take (d.indexOf ':') ∧
    d = d.take (d.indexOf ':') ++ ':' :: d.drop (d.indexOf ':' + 1) := by
  induction d with
  | nil => simp at h
  | cons x xs ih =>
    by_cases hx : x = ':'
    · subst hx
      simp [List.indexOf_cons]
    · have hxs : ':' ∈ xs := by
        rcases List.mem_cons.mp h with e | e
        · exact absurd e.symm hx
        · exact e
      obtain ⟨h1, h2, h3⟩ := ih hxs
      have hne : (x == ':') = false := by simpa using hx
      simp only [List.indexOf_cons, hne, cond_false, List.length_cons, List.take_succ_cons,
        List.drop_succ_cons, List.cons_append]
      refine ⟨by omega, ?_, ?_⟩
      · intro hm
        rcases List.mem_cons.mp hm with e | e
        · exact hx e.symm
        · exact h2 e
      · rw [← h3]

/-- Reading a content `d ++ [z]` of at most 1023 bytes and overwriting its last byte:
the buffer then holds `d`, a NUL, and what the buffer held before. -/
theorem fread_then_terminate (d : List Char) (z : Char) (buffer : List Char)
    (hlen : (d ++ [z]).length ≤ 1023) :
    (freadBuffer (d ++ [z]) buffer).1 = d.length + 1 ∧
    (freadBuffer (d ++ [z]) buffer).2.set ((freadBuffer (d ++ [z]) buffer).1 - 1) '\x00' =
      d ++ '\x00' :: buffer.drop (d.length + 1) := by
  have hl : (d ++ [z]).length = d.length + 1 := by simp
  have hrd : min (d ++ [z]).length 1023 = d.length + 1 := by omega
  have htake : (d ++ [z]).take (d.length + 1) = d ++ [z] :=
    List.take_of_length_le (le_of_eq hl)
  have h2 : (freadBuffer (d ++ [z]) buffer).2 = d ++ z :: buffer.drop (d.length + 1) := by
    simp only [freadBuffer, hrd, htake]
    simp
  have h1 : (freadBuffer (d ++ [z]) buffer).1 = d.length + 1 := by
    simp only [freadBuffer, hrd]
  refine ⟨h1, ?_⟩
  rw [h1, h2, Nat.add_sub_cancel]
  exact set_after _ _ _ _

/-- The loader on a content `u ++ ':' :: s ++ [z]` without NUL whose part `u` holds no
`:`: it returns `u` and `s`. -/
theorem parse_of_split (fs : String → FileState) (buffer : List Char) (path : String)
    (u s : List Char) (z : Char) (hload : Loadable fs path (u ++ ':' :: s ++ [z]))
    (hlen : (u ++ ':' :: s ++ [z]).length ≤ 1023) (hu : ':' ∉ u) (hu0 : '\x00' ∉ u)
    (hs0 : '\x00' ∉ s) (username passwd : Bool) :
    parse_credentials_file fs buffer (some path) username passwd =
      { ret := 0
        username := if username then some u else none
        passwd := if passwd then some s else none
        trace := [.stat path, .fopen path, .fread, .fclose]
        error := none } := by
  obtain ⟨sb, hstat, hreg, hsz1, hsz2, hmode, hopen, hcontent⟩ := hload
  have hgate : (!S_ISREG sb.st_mode || decide (sb.st_size < 1) ||
      decide (sb.st_size ≥ 1024)) = false := by
    simp [hreg]; omega
  have hd0 : '\x00' ∉ u ++ ':' :: s := by
    simp only [List.mem_append, List.mem_cons, not_or]
    exact ⟨hu0, by decide, hs0⟩
  obtain ⟨hrd, hbuf2⟩ := fread_then_terminate (u ++ ':' :: s) z buffer hlen
  have hrd1 : ¬ (freadBuffer (u ++ ':' :: s ++ [z]) buffer).1 < 1 := by omega
  have hcs : cstr ((u ++ ':' :: s) ++ '\x00' :: buffer.drop ((u ++ ':' :: s).length + 1)) 0 =
      u ++ ':' :: s := by
    simp only [cstr, List.drop_zero]
    exact takeWhile_nul _ _ hd0
  have hidx : (u ++ ':' :: s).indexOf ':' = u.length := by
    rw [List.indexOf_append_of_not_mem hu]
    simp [List.indexOf_cons]
  have hstr : strstrColon ((u ++ ':' :: s) ++ '\x00' ::
      buffer.drop ((u ++ ':' :: s).length + 1)) = some u.length := by
    simp only [strstrColon, hcs, hidx]
    simp
  have hbuf3 : ((u ++ ':' :: s) ++ '\x00' :: buffer.drop ((u ++ ':' :: s).length + 1)).set
      u.length '\x00' =
      u ++ '\x00' :: (s ++ '\x00' :: buffer.drop ((u ++ ':' :: s).length + 1)) := by
    have := set_after u (s ++ '\x00' :: buffer.drop ((u ++ ':' :: s).length + 1)) ':' '\x00'
    simp only [List.append_assoc, List.cons_append] at this ⊢
    exact this
  have hcu : cstr (u ++ '\x00' :: (s ++ '\x00' ::
      buffer.drop ((u ++ ':' :: s).length + 1))) 0 = u := by
    simp only [cstr, List.drop_zero]
    exact takeWhile_nul _ _ hu0
  have hcp : cstr (u ++ '\x00' :: (s ++ '\x00' ::
      buffer.drop ((u ++ ':' :: s).length + 1))) (u.length + 1) = s := by
    simp only [cstr]
    have : (u ++ '\x00' :: (s ++ '\x00' :: buffer.drop ((u ++ ':' :: s).length + 1))).drop
        (u.length + 1) = s ++ '\x00' :: buffer.drop ((u ++ ':' :: s).length + 1) := by
      rw [show u ++ '\x00' :: (s ++ '\x00' :: buffer.drop ((u ++ ':' :: s).length + 1)) =
        (u ++ ['\x00']) ++ (s ++ '\x00' :: buffer.drop ((u ++ ':' :: s).length + 1)) by simp]
      exact List.drop_left' (by simp)
    rw [this]
    exact takeWhile_nul _ _ hs0
  simp only [parse_credentials_file, hstat, hgate, hmode, hopen, hcontent]
  simp only [hrd1, hbuf2, hstr, hbuf3, hcu, hcp]
  simp


/-- C1. For a content `c` of 1 to 1023 bytes, free of NUL, read from a file that passes
the metadata checks, whose part before the last byte contains a `:`, the loader returns
0 and a pair `(u, s)` with no `:` in `u` and `u ++ ":" ++ s` equal to `c` without its
last byte: the split is at the first `:`. -/
theorem load_splits_at_first_colon (fs : String → FileState) (buffer : List Char)
    (path : String) (c : List Char) (hload : Loadable fs path c) (hlen1 : 1 ≤ c.length)
    (hlen2 : c.length ≤ 1023) (hnul : '\x00' ∉ c) (hcolon : ':' ∈ c.dropLast) :
    ∃ u s, parse_credentials_file fs buffer (some path) true true =
        { ret := 0, username := some u, passwd := some s,
          trace := [.stat path, .fopen path, .fread, .fclose], error := none } ∧
      ':' ∉ u ∧ u ++ ':' :: s = c.dropLast := by
  have hne : c ≠ [] := by
    intro h; rw [h] at hlen1; simp at hlen1
  obtain ⟨d, z, rfl⟩ : ∃ d z, c = d ++ [z] :=
    ⟨c.dropLast, c.getLast hne, (List.dropLast_append_getLast hne).symm⟩
  rw [List.dropLast_concat] at hcolon ⊢
  obtain ⟨u, s, hu, rfl⟩ : ∃ u s, ':' ∉ u ∧ d = u ++ ':' :: s :=
    ⟨_, _, (split_first_colon d hcolon).2.1, (split_first_colon d hcolon).2.2⟩
  have hu0 : '\x00' ∉ u := fun h => hnul (by simp [h])
  have hs0 : '\x00' ∉ s := fun h => hnul (by simp [h])
  refine ⟨u, s, ?_, hu, rfl⟩
  have := parse_of_split fs buffer path u s z hload hlen2 hu hu0 hs0 true true
  simpa using this

/-- Witness of C1: the content "alice:s3cret\n" in a regular file of mode 0400 yields
the user name "alice" and the secret "s3cret". -/
theorem load_splits_at_first_colon_witness :
    (∃ u s, parse_credentials_file (fileWith ⟨0o100400, 13⟩ "alice:s3cret\n".toList) []
          (some "creds") true true =
        { ret := 0, username := some u, passwd := some s,
          trace := [.stat "creds", .fopen "creds", .fread, .fclose], error := none } ∧
      ':' ∉ u ∧ u ++ ':' :: s = "alice:s3cret\n".toList.dropLast) ∧
    parse_credentials_file (fileWith ⟨0o100400, 13⟩ "alice:s3cret\n".toList) []
        (some "creds") true true =
      { ret := 0, username := some "alice".toList, passwd := some "s3cret".toList,
        trace := [.stat "creds", .fopen "creds", .fread, .fclose], error := none } :=
  ⟨load_splits_at_first_colon (fileWith ⟨0o100400, 13⟩ "alice:s3cret\n".toList) [] "creds"
      "alice:s3cret\n".toList ⟨⟨0o100400, 13⟩, rfl, by decide, by decide, by decide,
        by decide, rfl, rfl⟩ (by decide) (by decide) (by decide) (by decide),
    by decide⟩

/-- C8, evaluated where the code departs from it.  The content "alice:s3cret", in the
documented form `user:password` without a trailing newline, is loaded with return
value 0, the user name "alice" and the secret "s3cre": the last byte of the secret is
lost, and the result differs from that of the same content followed by a newline. -/
theorem newline_not_optional :
    (parse_credentials_file (fileWith ⟨0o100400, 12⟩ "alice:s3cret".toList) []
        (some "creds") true true).ret = 0 ∧
    (parse_credentials_file (fileWith ⟨0o100400, 12⟩ "alice:s3cret".toList) []
        (some "creds") true true).username = some "alice".toList ∧
    (parse_credentials_file (fileWith ⟨0o100400, 12⟩ "alice:s3cret".toList) []
        (some "creds") true true).passwd = some "s3cre".toList ∧
    (parse_credentials_file (fileWith ⟨0o100400, 12⟩ "alice:s3cret".toList) []
        (some "creds") true true).passwd ≠
      (parse_credentials_file (fileWith ⟨0o100400, 13⟩ "alice:s3cret\n".toList) []
        (some "creds") true true).passwd := by
  decide

/-- The part of C8 that holds: a content `u ++ ":" ++ s ++ "\n"`, with no `:` in `u`, no
NUL and at most 1023 bytes, is loaded as `(u, s)`. -/
theorem load_with_trailing_newline (fs : String → FileState) (buffer : List Char)
    (path : String) (u s : List Char) (hu : ':' ∉ u) (hu0 : '\x00' ∉ u) (hs0 : '\x00' ∉ s)
    (hlen : u.length + 1 + s.length < 1023)
    (h : Loadable fs path (u ++ ':' :: s ++ ['\n'])) :
    parse_credentials_file fs buffer (some path) true true =
      { ret := 0, username := some u, passwd := some s,
        trace := [.stat path, .fopen path, .fread, .fclose], error := none } := by
  have hl : (u ++ ':' :: s ++ ['\n']).length ≤ 1023 := by
    simp only [List.length_append, List.length_cons, List.length_nil]; omega
  have := parse_of_split fs buffer path u s '\n' h hl hu hu0 hs0 true true
  simpa using this

/-! ## Floating point: rounding lemmas -/

/-- The binary exponent of a positive rational is fixed by the powers of two around it. -/
theorem log2_eq (x : ℚ) (e : Int) (h1 : (2 : ℚ) ^ e ≤ x) (h2 : x < (2 : ℚ) ^ (e + 1)) :
    Int.log 2 x = e := by
  have hx : 0 < x := lt_of_lt_of_le (by positivity) h1
  have a : e ≤ Int.log 2 x :=
    (Int.zpow_le_iff_le_log (by norm_num) hx).mp (by simpa using h1)
  have b : Int.log 2 x < e + 1 :=
    (Int.lt_zpow_iff_log_lt (by norm_num) hx).mp (by simpa using h2)
  omega

/-- An integer rounds to itself. -/
theorem roundHalfEven_intCast (n : Int) : roundHalfEven (n : ℚ) = n := by
  simp [roundHalfEven]

/-- Rounding down: the fraction is below one half. -/
theorem roundHalfEven_of_lt (m : ℚ) (f : Int) (h1 : (f : ℚ) ≤ m) (h2 : m < f + 1 / 2) :
    roundHalfEven m = f := by
  have hf : ⌊m⌋ = f := Int.floor_eq_iff.mpr ⟨h1, by linarith⟩
  have hd : m - (f : ℚ) < 1 / 2 := by linarith
  simp only [roundHalfEven, hf, hd, if_true]

/-- Rounding up: the fraction is above one half. -/
theorem roundHalfEven_of_gt (m : ℚ) (f : Int) (h1 : (f : ℚ) + 1 / 2 < m) (h2 : m < f + 1) :
    roundHalfEven m = f + 1 := by
  have hf : ⌊m⌋ = f := Int.floor_eq_iff.mpr ⟨by linarith, h2⟩
  have hd : ¬ (m - (f : ℚ) < 1 / 2) := by linarith
  have hd2 : 1 / 2 < m - (f : ℚ) := by linarith
  simp only [roundHalfEven, hf, hd, hd2, if_true, if_false]

/-- Rounding to `p` bits, given the binary exponent `e` of the argument and the rounded
significand `n`. -/
theorem roundToPrec_eq (p : Nat) (x : ℚ) (e n : Int) (h1 : (2 : ℚ) ^ e ≤ |x|)
    (h2 : |x| < (2 : ℚ) ^ (e + 1))
    (hn : roundHalfEven (x / (2 : ℚ) ^ (e - ((p : Int) - 1))) = n) :
    roundToPrec p x = n * (2 : ℚ) ^ (e - ((p : Int) - 1)) := by
  have hx : x ≠ 0 := by
    intro h
    rw [h, abs_zero] at h1
    exact absurd h1 (not_le.mpr (by positivity))
  simp only [roundToPrec, hx, if_false, log2_eq |x| e h1 h2, hn]

/-- A number with a significand of fewer than `p` bits is not changed by rounding to
`p` bits. -/
theorem roundToPrec_exact (p : Nat) (m e : Int) (hm : |m| < 2 ^ p) :
    roundToPrec p ((m : ℚ) * (2 : ℚ) ^ e) = (m : ℚ) * (2 : ℚ) ^ e := by
  by_cases h0 : m = 0
  · simp [h0, roundToPrec]
  have h2pos : (0 : ℚ) < (2 : ℚ) ^ e := by positivity
  have hx : (m : ℚ) * (2 : ℚ) ^ e ≠ 0 :=
    mul_ne_zero (by exact_mod_cast h0) (ne_of_gt h2pos)
  have habs : |(m : ℚ) * (2 : ℚ) ^ e| = |(m : ℚ)| * (2 : ℚ) ^ e := by
    rw [abs_mul, abs_of_pos h2pos]
  have hxpos : 0 < |(m : ℚ) * (2 : ℚ) ^ e| := abs_pos.mpr hx
  have hlog := Int.zpow_log_le_self (b := 2) (by norm_num) hxpos
  have hmq : |(m : ℚ)| < (2 : ℚ) ^ (p : Int) := by
    have : ((|m| : Int) : ℚ) < ((2 ^ p : Int) : ℚ) := by exact_mod_cast hm
    simpa using this
  have hlt : (2 : ℚ) ^ (Int.log 2 |(m : ℚ) * (2 : ℚ) ^ e|) < (2 : ℚ) ^ ((p : Int) + e) := by
    have h3 : |(m : ℚ)| * (2 : ℚ) ^ e < (2 : ℚ) ^ (p : Int) * (2 : ℚ) ^ e :=
      mul_lt_mul_of_pos_right hmq h2pos
    rw [zpow_add₀ (by norm_num : (2 : ℚ) ≠ 0)]
    calc (2 : ℚ) ^ (Int.log 2 |(m : ℚ) * (2 : ℚ) ^ e|)
        ≤ |(m : ℚ) * (2 : ℚ) ^ e| := by simpa using hlog
      _ = |(m : ℚ)| * (2 : ℚ) ^ e := habs
      _ < (2 : ℚ) ^ (p : Int) * (2 : ℚ) ^ e := h3
  have hL : Int.log 2 |(m : ℚ) * (2 : ℚ) ^ e| < (p : Int) + e :=
    (zpow_lt_zpow_iff_right₀ (by norm_num : (1 : ℚ) < 2)).mp hlt
  obtain ⟨k, hk⟩ : ∃ k : ℕ, (k : Int) =
      e - (Int.log 2 |(m : ℚ) * (2 : ℚ) ^ e| - ((p : Int) - 1)) :=
    ⟨(e - (Int.log 2 |(m : ℚ) * (2 : ℚ) ^ e| - ((p : Int) - 1))).toNat,
      Int.toNat_of_nonneg (by omega)⟩
  have hquot : (m : ℚ) * (2 : ℚ) ^ e /
      (2 : ℚ) ^ (Int.log 2 |(m : ℚ) * (2 : ℚ) ^ e| - ((p : Int) - 1)) =
      ((m * 2 ^ k : Int) : ℚ) := by
    rw [mul_div_assoc, ← zpow_sub₀ (by norm_num : (2 : ℚ) ≠ 0), ← hk]
    push_cast
    rw [zpow_natCast]
  simp only [roundToPrec, hx, if_false, hquot, roundHalfEven_intCast]
  push_cast
  rw [mul_assoc, ← zpow_natCast, ← zpow_add₀ (by norm_num : (2 : ℚ) ≠ 0), hk]
  congr 2
  ring


/-- A `float` holds every integer of magnitude below `2^24` exactly. -/
theorem toFloat_int (n : Int) (h : |n| < 2 ^ 24) : toFloat (n : ℚ) = n := by
  have := roundToPrec_exact 24 n 0 h
  simpa [toFloat] using this

/-- A `float` holds every multiple of `2^(-g)` with numerator below `2^24` exactly. -/
theorem toFloat_dyadic (k : Int) (g : Nat) (h : |k| < 2 ^ 24) :
    toFloat ((k : ℚ) / 2 ^ g) = (k : ℚ) / 2 ^ g := by
  have := roundToPrec_exact 24 k (-(g : Int)) h
  simpa [toFloat, div_eq_mul_inv, zpow_neg] using this

/-- A `double` holds every multiple of `2^(-g)` with numerator below `2^53` exactly. -/
theorem toDouble_dyadic (k : Int) (g : Nat) (h : |k| < 2 ^ 53) :
    toDouble ((k : ℚ) / 2 ^ g) = (k : ℚ) / 2 ^ g := by
  have := roundToPrec_exact 53 k (-(g : Int)) h
  simpa [toDouble, div_eq_mul_inv, zpow_neg] using this

/-- In `float`, `1 / 3` is `11184811 / 2^25`. -/
theorem floatQuot_one_three : floatQuot 1 3 = 11184811 / 33554432 := by
  have h1 : toFloat ((1 : Int) : ℚ) = ((1 : Int) : ℚ) := toFloat_int 1 (by norm_num)
  have h3 : toFloat ((3 : Int) : ℚ) = ((3 : Int) : ℚ) := toFloat_int 3 (by norm_num)
  have hn : roundHalfEven ((1 / 3 : ℚ) / (2 : ℚ) ^ ((-2 : Int) - (((24 : Nat) : Int) - 1))) =
      11184811 := by
    have := roundHalfEven_of_gt ((1 / 3 : ℚ) / (2 : ℚ) ^ ((-2 : Int) - (((24 : Nat) : Int) - 1)))
      11184810 (by norm_num) (by norm_num)
    simpa using this
  have hr := roundToPrec_eq 24 (1 / 3) (-2) 11184811 (by norm_num [abs_of_pos])
    (by norm_num [abs_of_pos]) hn
  rw [floatQuot, h1, h3]
  simp only [toFloat, Int.cast_one, Int.cast_ofNat]
  rw [hr]
  norm_num

/-! ## The ledger aggregator -/

/-- A column value in the range of `int` is stored unchanged. -/
theorem toInt32_strtol_of_fits (v : Int) (h1 : -2147483648 ≤ v) (h2 : v ≤ 2147483647) :
    toInt32 (strtol v) = v := by
  have hs : strtol v = v := by
    unfold strtol
    rw [if_neg (by omega), if_neg (by omega)]
  rw [hs]
  unfold toInt32
  omega

/-- A row count below `2^31` is its own `(int)` conversion. -/
theorem rowCntToInt_of_lt (n : Nat) (h : n < 2147483648) : rowCntToInt n = n := by
  unfold rowCntToInt toInt32
  omega

/-- The loop over exactly the rows left, all with a positive `denom`, ends with the
accumulated sum. -/
theorem balanceLoop_ok (row_cnt : Nat) (rows : List SplitRow) (i : Int) (bal : ℚ)
    (hden : ∀ r ∈ rows, 0 < r.denom) :
    balanceLoop row_cnt rows.length i rows bal = .ok (accumulate bal rows) := by
  induction rows generalizing i bal with
  | nil => rfl
  | cons r rs ih =>
    have hr : ¬ r.denom ≤ 0 := not_le.mpr (hden r (by simp))
    simp only [List.length_cons, balanceLoop, hr, if_false]
    rw [ih (i + 1) _ (fun x hx => hden x (by simp [hx]))]
    rfl

/-- The function on a connection that resolves the account and yields the rows `res`:
guid lookup and query succeed and the loop decides the outcome. -/
theorem computeBalance_of_serves (con : Connection) (accnt_name guid : String)
    (res : MysqlRes SplitRow) (hs : Serves con accnt_name guid res) :
    computeBalance con accnt_name =
      balanceLoop res.num_rows (rowCntToInt res.num_rows).toNat 0 res.rows 0 := by
  simp only [computeBalance, hs.1, hs.2]

/-- The sample connection serves its ledger. -/
theorem ledgerOf_serves (res : MysqlRes SplitRow) : Serves (ledgerOf res) "Assets" "g" res :=
  ⟨rfl, rfl⟩

/-- Under `SumsExact` no addition of the accumulation rounds: the result is the exact
sum of the row values. -/
theorem accumulate_exact (g : Nat) (rows : List SplitRow) (bal : ℚ) (hb : Dyadic g bal)
    (hd : ∀ r ∈ rows, Dyadic g r.value)
    (hsum : (|bal| + (rows.map fun r => |r.value|).sum) * 2 ^ g < 2 ^ 53) :
    accumulate bal rows = bal + (rows.map fun r => r.value).sum := by
  induction rows generalizing bal with
  | nil => simp [accumulate]
  | cons r rs ih =>
    obtain ⟨kb, hkb⟩ := hb
    obtain ⟨kr, hkr⟩ := hd r (by simp)
    have hnn : 0 ≤ (rs.map fun r => |r.value|).sum :=
      List.sum_nonneg (by intro x hx; obtain ⟨y, _, rfl⟩ := List.mem_map.mp hx; exact abs_nonneg _)
    have hpow : (0 : ℚ) < 2 ^ g := by positivity
    simp only [List.map_cons, List.sum_cons] at hsum
    have hstep : doubleAdd bal r.value = bal + r.value := by
      have hk : bal + r.value = ((kb + kr : Int) : ℚ) / 2 ^ g := by
        rw [hkb, hkr]; push_cast; ring
      have hlt : |kb + kr| < 2 ^ 53 := by
        have h1 : |bal + r.value| * 2 ^ g < 2 ^ 53 := by
          have : |bal + r.value| ≤ |bal| + |r.value| := abs_add _ _
          nlinarith
        have h2 : |bal + r.value| * 2 ^ g = |((kb + kr : Int) : ℚ)| := by
          rw [hk, abs_div, abs_of_pos hpow, div_mul_cancel₀ _ (ne_of_gt hpow)]
        rw [h2, ← Int.cast_abs] at h1
        exact_mod_cast h1
      rw [doubleAdd, hk]
      exact toDouble_dyadic _ g hlt
    have hacc : accumulate bal (r :: rs) = accumulate (bal + r.value) rs := by
      simp only [accumulate, List.foldl_cons, hstep]
    rw [hacc, ih (bal + r.value) ⟨kb + kr, by rw [hkb, hkr]; push_cast; ring⟩
      (fun x hx => hd x (by simp [hx]))]
    · simp only [List.map_cons, List.sum_cons]; ring
    · have : |bal + r.value| ≤ |bal| + |r.value| := abs_add _ _
      nlinarith


/-- On a connection that resolves the account and delivers as many rows as it reports,
fewer than `2^31`, all with a positive `denom`, the function returns 0 and stores the
accumulated sum. -/
theorem balance_of_positive_rows (con : Connection) (accnt_name guid : String)
    (res : MysqlRes SplitRow) (balance : ℚ) (hs : Serves con accnt_name guid res)
    (hcnt : res.rows.length = res.num_rows) (hfew : res.num_rows < 2147483648)
    (hden : ∀ r ∈ res.rows, 0 < r.denom) :
    gnc_get_account_balance con accnt_name balance =
      { ret := 0, balance := accumulate 0 res.rows, error := none } := by
  have hn : (rowCntToInt res.num_rows).toNat = res.rows.length := by
    rw [rowCntToInt_of_lt _ hfew, hcnt]; simp
  simp only [gnc_get_account_balance, computeBalance_of_serves con accnt_name guid res hs, hn,
    balanceLoop_ok _ _ _ _ hden]

/-- The value of a row whose columns fit an `int`. -/
theorem value_of_fitsInt (r : SplitRow) (h : r.fitsInt) :
    r.num = r.value_num ∧ r.denom = r.value_denom ∧
    r.value = floatQuot r.value_num r.value_denom := by
  obtain ⟨h1, h2, h3, h4⟩ := h
  have hn : r.num = r.value_num := toInt32_strtol_of_fits _ h1 h2
  have hd : r.denom = r.value_denom := toInt32_strtol_of_fits _ h3 h4
  exact ⟨hn, hd, by rw [SplitRow.value, hn, hd]⟩

/-- The value of a sample row whose columns fit an `int`. -/
theorem value_split (a b : Int) (ha1 : -2147483648 ≤ a) (ha2 : a ≤ 2147483647)
    (hb1 : -2147483648 ≤ b) (hb2 : b ≤ 2147483647) :
    (split a b).denom = b ∧ (split a b).value = floatQuot a b := by
  have h := value_of_fitsInt (split a b) ⟨ha1, ha2, hb1, hb2⟩
  exact ⟨h.2.1, h.2.2⟩

/-- In `float`, `13107201 / 100` is `131072.015625`, not `131072.01`: the rounding of
the quotient to single precision shows in the second decimal. -/
theorem floatQuot_13107201_100 : floatQuot 13107201 100 = 8388609 / 64 := by
  have h : toFloat ((100 : Int) : ℚ) = ((100 : Int) : ℚ) := toFloat_int 100 (by norm_num)
  have h2 : toFloat ((13107201 : Int) : ℚ) = ((13107201 : Int) : ℚ) :=
    toFloat_int 13107201 (by norm_num)
  have hn : roundHalfEven ((13107201 / 100 : ℚ) /
      (2 : ℚ) ^ ((17 : Int) - (((24 : Nat) : Int) - 1))) = 8388609 := by
    have := roundHalfEven_of_gt ((13107201 / 100 : ℚ) /
      (2 : ℚ) ^ ((17 : Int) - (((24 : Nat) : Int) - 1))) 8388608 (by norm_num) (by norm_num)
    simpa using this
  have hr := roundToPrec_eq 24 (13107201 / 100) 17 8388609 (by norm_num [abs_of_pos])
    (by norm_num [abs_of_pos]) hn
  rw [floatQuot, h, h2]
  simp only [toFloat, Int.cast_ofNat]
  rw [hr]
  norm_num

/-- In `float`, `100 / 100` is 1. -/
theorem floatQuot_100_100 : floatQuot 100 100 = 1 := by
  have h : toFloat ((100 : Int) : ℚ) = ((100 : Int) : ℚ) := toFloat_int 100 (by norm_num)
  have h1 : toFloat ((1 : Int) : ℚ) = ((1 : Int) : ℚ) := toFloat_int 1 (by norm_num)
  rw [floatQuot, h]
  norm_num at h1 ⊢
  exact h1

/-- In `float`, `250 / 100` is `5 / 2`. -/
theorem floatQuot_250_100 : floatQuot 250 100 = 5 / 2 := by
  have h : toFloat ((100 : Int) : ℚ) = ((100 : Int) : ℚ) := toFloat_int 100 (by norm_num)
  have h2 : toFloat ((250 : Int) : ℚ) = ((250 : Int) : ℚ) := toFloat_int 250 (by norm_num)
  have h1 := toFloat_dyadic 5 1 (by norm_num)
  rw [floatQuot, h, h2]
  norm_num at h1 ⊢
  exact h1

/-- In `float`, `-50 / 100` is `-1 / 2`. -/
theorem floatQuot_neg50_100 : floatQuot (-50) 100 = -1 / 2 := by
  have h : toFloat ((100 : Int) : ℚ) = ((100 : Int) : ℚ) := toFloat_int 100 (by norm_num)
  have h2 : toFloat ((-50 : Int) : ℚ) = ((-50 : Int) : ℚ) := toFloat_int (-50) (by norm_num)
  have h1 := toFloat_dyadic (-1) 1 (by norm_num)
  rw [floatQuot, h, h2]
  norm_num at h1 ⊢
  exact h1

/-- In `float`, `2^30 / 1` is `2^30`. -/
theorem floatQuot_pow30 : floatQuot 1073741824 1 = 1073741824 := by
  have h1 : toFloat ((1 : Int) : ℚ) = ((1 : Int) : ℚ) := toFloat_int 1 (by norm_num)
  have hp := roundToPrec_exact 24 1 30 (by norm_num)
  rw [floatQuot, h1]
  norm_num [toFloat] at hp ⊢
  rw [hp, hp]

/-- In `float`, `-2^30 / 1` is `-2^30`. -/
theorem floatQuot_neg_pow30 : floatQuot (-1073741824) 1 = -1073741824 := by
  have h1 : toFloat ((1 : Int) : ℚ) = ((1 : Int) : ℚ) := toFloat_int 1 (by norm_num)
  have hp := roundToPrec_exact 24 (-1) 30 (by norm_num)
  rw [floatQuot, h1]
  norm_num [toFloat] at hp ⊢
  rw [hp, hp]

/-- In `double`, `2^30 + 11184811 / 2^25` is rounded to `2^30 + 1398101 / 2^22`. -/
theorem doubleAdd_pow30_third :
    doubleAdd 1073741824 (11184811 / 33554432) = 4503599628768597 / 4194304 := by
  have hn : roundHalfEven ((1073741824 + 11184811 / 33554432 : ℚ) /
      (2 : ℚ) ^ ((30 : Int) - (((53 : Nat) : Int) - 1))) = 4503599628768597 := by
    have := roundHalfEven_of_lt ((1073741824 + 11184811 / 33554432 : ℚ) /
      (2 : ℚ) ^ ((30 : Int) - (((53 : Nat) : Int) - 1))) 4503599628768597
      (by norm_num) (by norm_num)
    simpa using this
  have hr := roundToPrec_eq 53 (1073741824 + 11184811 / 33554432) 30 4503599628768597
    (by norm_num [abs_of_pos]) (by norm_num [abs_of_pos]) hn
  rw [doubleAdd, toDouble, hr]
  norm_num


/-- For rows whose columns fit an `int`, the accumulation in terms of the columns. -/
theorem accumulate_of_fitsInt (rows : List SplitRow) (b : ℚ) (hf : ∀ r ∈ rows, r.fitsInt) :
    accumulate b rows =
      rows.foldl (fun b r => doubleAdd b (floatQuot r.value_num r.value_denom)) b := by
  induction rows generalizing b with
  | nil => simp [accumulate]
  | cons r rs ih =>
    have hr := (value_of_fitsInt r (hf r (by simp))).2.2
    have ih2 := ih (doubleAdd b r.value) (fun x hx => hf x (by simp [hx]))
    simp only [accumulate, List.foldl_cons] at ih2 ⊢
    rw [ih2, hr]

/-- C4, as stated, fails: the single entry `(1, 3)` yields the balance
`11184811 / 2^25` (the `float` nearest to one third), not `0 + 1/3`. -/
theorem balance_not_exact_sum :
    gnc_get_account_balance (ledgerOf { num_rows := 1, rows := [split 1 3] }) "Assets" 0 =
      { ret := 0, balance := 11184811 / 33554432, error := none } ∧
    (11184811 / 33554432 : ℚ) ≠ 0 + (1 : Int) / (3 : Int) := by
  constructor
  · have hv := value_split 1 3 (by norm_num) (by norm_num) (by norm_num) (by norm_num)
    rw [balance_of_positive_rows _ "Assets" "g" _ 0 (ledgerOf_serves _) rfl (by norm_num)
      (by intro r hr; simp only [List.mem_singleton] at hr; rw [hr, hv.1]; norm_num)]
    have hd := toDouble_dyadic 11184811 25 (by norm_num)
    simp only [accumulate, List.foldl_cons, List.foldl_nil, hv.2, floatQuot_one_three,
      doubleAdd, zero_add]
    norm_num at hd ⊢
    exact hd
  · norm_num

/-- C4, amended.  For a ledger whose numeric columns fit the 32-bit `int`, with fewer
than `2^31` rows, all fetched and all with a denominator above 0, the function returns 0
and the balance is the accumulation in `double`, from 0.0 and in the fetched order, of
the `float` quotients `(float) num / (float) denom`; for no rows it is 0.0.  When no
quotient and no sum needs rounding, the balance is the exact sum of
numerator/denominator. -/
theorem balance_is_float_accumulation (con : Connection) (accnt_name guid : String)
    (res : MysqlRes SplitRow) (balance : ℚ) (hs : Serves con accnt_name guid res)
    (hcnt : res.rows.length = res.num_rows) (hfew : res.num_rows < 2147483648)
    (hfit : ∀ r ∈ res.rows, r.fitsInt) (hden : ∀ r ∈ res.rows, 0 < r.value_denom) :
    gnc_get_account_balance con accnt_name balance =
      { ret := 0, error := none,
        balance := res.rows.foldl
          (fun b r => doubleAdd b (floatQuot r.value_num r.value_denom)) 0 } ∧
    (res.rows = [] → (gnc_get_account_balance con accnt_name balance).balance = 0) ∧
    (∀ g, SumsExact g res.rows →
      (∀ r ∈ res.rows, floatQuot r.value_num r.value_denom =
        (r.value_num : ℚ) / (r.value_denom : ℚ)) →
      (gnc_get_account_balance con accnt_name balance).balance =
        0 + (res.rows.map fun r => (r.value_num : ℚ) / (r.value_denom : ℚ)).sum) := by
  have hden2 : ∀ r ∈ res.rows, 0 < r.denom := by
    intro r hr
    rw [(value_of_fitsInt r (hfit r hr)).2.1]
    exact hden r hr
  have hmain := balance_of_positive_rows con accnt_name guid res balance hs hcnt hfew hden2
  refine ⟨?_, ?_, ?_⟩
  · rw [hmain, accumulate_of_fitsInt _ _ hfit]
  · intro he
    rw [hmain, he]
    simp [accumulate]
  · intro g hg hq
    have hz : Dyadic g 0 := ⟨0, by simp⟩
    have hs2 : (|(0 : ℚ)| + (res.rows.map fun r => |r.value|).sum) * 2 ^ g < 2 ^ 53 := by
      rw [abs_zero, zero_add]
      exact hg.2
    have hmap : (res.rows.map fun r => r.value) =
        (res.rows.map fun r => (r.value_num : ℚ) / (r.value_denom : ℚ)) := by
      apply List.map_congr_left
      intro r hr
      rw [(value_of_fitsInt r (hfit r hr)).2.2, hq r hr]
    rw [hmain]
    simp only
    rw [accumulate_exact g res.rows 0 hz hg.1 hs2, hmap]


/-- A property of three listed rows holds for every member of the list. -/
theorem forall_mem_three (P : SplitRow → Prop) (a b c : SplitRow) (ha : P a) (hb : P b)
    (hc : P c) : ∀ r ∈ [a, b, c], P r := by
  intro r hr
  rcases List.mem_cons.mp hr with h | hr
  · exact h ▸ ha
  rcases List.mem_cons.mp hr with h | hr
  · exact h ▸ hb
  rcases List.mem_cons.mp hr with h | hr
  · exact h ▸ hc
  · cases hr

/-- The values of the rows (100,100), (250,100) and (-50,100). -/
theorem values_sample :
    (split 100 100).value = 1 ∧ (split 250 100).value = 5 / 2 ∧
    (split (-50) 100).value = -1 / 2 := by
  refine ⟨?_, ?_, ?_⟩
  · rw [(value_split 100 100 (by norm_num) (by norm_num) (by norm_num) (by norm_num)).2,
      floatQuot_100_100]
  · rw [(value_split 250 100 (by norm_num) (by norm_num) (by norm_num) (by norm_num)).2,
      floatQuot_250_100]
  · rw [(value_split (-50) 100 (by norm_num) (by norm_num) (by norm_num) (by norm_num)).2,
      floatQuot_neg50_100]

/-- The sample rows fit an `int`. -/
theorem fits_sample : ∀ r ∈ [split 100 100, split 250 100, split (-50) 100], r.fitsInt :=
  forall_mem_three _ _ _ _ (by simp [SplitRow.fitsInt, split])
    (by simp [SplitRow.fitsInt, split]) (by simp [SplitRow.fitsInt, split])

/-- The sample rows have a denominator above 0. -/
theorem denom_sample :
    ∀ r ∈ [split 100 100, split 250 100, split (-50) 100], 0 < r.value_denom :=
  forall_mem_three _ _ _ _ (by simp [split]) (by simp [split]) (by simp [split])

/-- The sample rows are halves that add up to little. -/
theorem sumsExact_sample : SumsExact 1 [split 100 100, split 250 100, split (-50) 100] := by
  obtain ⟨hv1, hv2, hv3⟩ := values_sample
  constructor
  · exact forall_mem_three _ _ _ _ ⟨2, by rw [hv1]; norm_num⟩ ⟨5, by rw [hv2]; norm_num⟩
      ⟨-1, by rw [hv3]; norm_num⟩
  · simp only [List.map_cons, List.map_nil, List.sum_cons, List.sum_nil, hv1, hv2, hv3]
    norm_num [abs_of_pos, abs_of_neg]

/-- The quotients of the sample rows are exact. -/
theorem quotients_sample : ∀ r ∈ [split 100 100, split 250 100, split (-50) 100],
    floatQuot r.value_num r.value_denom = (r.value_num : ℚ) / (r.value_denom : ℚ) :=
  forall_mem_three _ _ _ _
    (by simp only [split]; rw [floatQuot_100_100]; norm_num)
    (by simp only [split]; rw [floatQuot_250_100]; norm_num)
    (by simp only [split]; rw [floatQuot_neg50_100]; norm_num)

/-- Witness of C4, amended: the entries (100,100), (250,100), (-50,100) yield 3. -/
theorem balance_is_float_accumulation_witness :
    (gnc_get_account_balance
      (ledgerOf { num_rows := 3, rows := [split 100 100, split 250 100, split (-50) 100] })
      "Assets" 0).balance = 3 := by
  have h := (balance_is_float_accumulation
    (ledgerOf { num_rows := 3, rows := [split 100 100, split 250 100, split (-50) 100] })
    "Assets" "g" { num_rows := 3, rows := [split 100 100, split 250 100, split (-50) 100] }
    0 (ledgerOf_serves _) (by simp) (by norm_num) fits_sample denom_sample).2.2 1
    sumsExact_sample quotients_sample
  rw [h]
  simp only [List.map_cons, List.map_nil, List.sum_cons, List.sum_nil, split]
  norm_num


/-- The exactness condition does not depend on the order of the rows. -/
theorem SumsExact_perm (g : Nat) (l l' : List SplitRow) (hp : l.Perm l')
    (h : SumsExact g l) : SumsExact g l' := by
  constructor
  · intro r hr
    exact h.1 r (hp.mem_iff.mpr hr)
  · have : (l'.map fun r => |r.value|).sum = (l.map fun r => |r.value|).sum :=
      ((hp.map _).sum_eq).symm
    rw [this]
    exact h.2

/-- Rounding zero to `double`. -/
theorem toDouble_zero : toDouble 0 = 0 := by simp [toDouble, roundToPrec]

/-- The `double` `2^30`. -/
theorem toDouble_pow30 : toDouble 1073741824 = 1073741824 := by
  have := roundToPrec_exact 53 1073741824 0 (by norm_num)
  norm_num [toDouble] at this ⊢
  exact this

/-- The `double` `1398101 / 2^22`. -/
theorem toDouble_1398101 : toDouble (1398101 / 4194304) = 1398101 / 4194304 := by
  have := toDouble_dyadic 1398101 22 (by norm_num)
  norm_num at this ⊢
  exact this

/-- The `double` `11184811 / 2^25`. -/
theorem toDouble_11184811 : toDouble (11184811 / 33554432) = 11184811 / 33554432 := by
  have := toDouble_dyadic 11184811 25 (by norm_num)
  norm_num at this ⊢
  exact this

/-- The accumulation over three rows. -/
theorem accumulate_three (b : ℚ) (x y z : SplitRow) :
    accumulate b [x, y, z] = doubleAdd (doubleAdd (doubleAdd b x.value) y.value) z.value := by
  simp [accumulate]

/-- The accumulation over (2^30,1), (1,3), (-2^30,1). -/
theorem accumulate_big_third_negbig :
    accumulate 0 [split 1073741824 1, split 1 3, split (-1073741824) 1] =
      1398101 / 4194304 := by
  have ha := value_split 1073741824 1 (by norm_num) (by norm_num) (by norm_num) (by norm_num)
  have hb := value_split 1 3 (by norm_num) (by norm_num) (by norm_num) (by norm_num)
  have hc := value_split (-1073741824) 1 (by norm_num) (by norm_num) (by norm_num)
    (by norm_num)
  have e1 : doubleAdd 0 1073741824 = 1073741824 := by
    rw [doubleAdd, zero_add, toDouble_pow30]
  have e3 : doubleAdd (4503599628768597 / 4194304) (-1073741824) = 1398101 / 4194304 := by
    rw [doubleAdd]
    norm_num
    exact toDouble_1398101
  rw [accumulate_three, ha.2, hb.2, hc.2, floatQuot_one_three, floatQuot_pow30,
    floatQuot_neg_pow30, e1, doubleAdd_pow30_third, e3]

/-- The accumulation over (2^30,1), (-2^30,1), (1,3). -/
theorem accumulate_big_negbig_third :
    accumulate 0 [split 1073741824 1, split (-1073741824) 1, split 1 3] =
      11184811 / 33554432 := by
  have ha := value_split 1073741824 1 (by norm_num) (by norm_num) (by norm_num) (by norm_num)
  have hb := value_split 1 3 (by norm_num) (by norm_num) (by norm_num) (by norm_num)
  have hc := value_split (-1073741824) 1 (by norm_num) (by norm_num) (by norm_num)
    (by norm_num)
  have e1 : doubleAdd 0 1073741824 = 1073741824 := by
    rw [doubleAdd, zero_add, toDouble_pow30]
  have e2 : doubleAdd 1073741824 (-1073741824) = 0 := by
    rw [doubleAdd]
    norm_num
    exact toDouble_zero
  have e3 : doubleAdd 0 (11184811 / 33554432) = 11184811 / 33554432 := by
    rw [doubleAdd, zero_add, toDouble_11184811]
  rw [accumulate_three, ha.2, hb.2, hc.2, floatQuot_one_three, floatQuot_pow30,
    floatQuot_neg_pow30, e1, e2, e3]

/-- The rows (2^30,1), (1,3), (-2^30,1) have a positive `denom`. -/
theorem denom_pos_big_third_negbig :
    0 < (split 1073741824 1).denom ∧ 0 < (split 1 3).denom ∧
    0 < (split (-1073741824) 1).denom := by
  have ha := value_split 1073741824 1 (by norm_num) (by norm_num) (by norm_num) (by norm_num)
  have hb := value_split 1 3 (by norm_num) (by norm_num) (by norm_num) (by norm_num)
  have hc := value_split (-1073741824) 1 (by norm_num) (by norm_num) (by norm_num)
    (by norm_num)
  refine ⟨?_, ?_, ?_⟩
  · rw [ha.1]; norm_num
  · rw [hb.1]; norm_num
  · rw [hc.1]; norm_num

/-- C10, as stated, fails: the entries (2^30,1), (1,3), (-2^30,1) yield the balance
`1398101 / 2^22` in this order and `11184811 / 2^25` when the last two are swapped. -/
theorem balance_depends_on_order :
    List.Perm [split 1073741824 1, split 1 3, split (-1073741824) 1]
      [split 1073741824 1, split (-1073741824) 1, split 1 3] ∧
    gnc_get_account_balance (ledgerOf
        ⟨3, [split 1073741824 1, split 1 3, split (-1073741824) 1]⟩) "Assets" 0 =
      { ret := 0, balance := 1398101 / 4194304, error := none } ∧
    gnc_get_account_balance (ledgerOf
        ⟨3, [split 1073741824 1, split (-1073741824) 1, split 1 3]⟩) "Assets" 0 =
      { ret := 0, balance := 11184811 / 33554432, error := none } ∧
    (1398101 / 4194304 : ℚ) ≠ 11184811 / 33554432 := by
  obtain ⟨da, db, dc⟩ := denom_pos_big_third_negbig
  refine ⟨List.Perm.cons _ (List.Perm.swap _ _ _), ?_, ?_, by norm_num⟩
  · rw [balance_of_positive_rows _ "Assets" "g" _ 0 (ledgerOf_serves _) (by simp) (by norm_num)
      (forall_mem_three _ _ _ _ da db dc)]
    rw [accumulate_big_third_negbig]
  · rw [balance_of_positive_rows _ "Assets" "g" _ 0 (ledgerOf_serves _) (by simp) (by norm_num)
      (forall_mem_three _ _ _ _ da dc db)]
    rw [accumulate_big_negbig_third]

/-- C10, amended.  For a ledger whose numeric columns fit the 32-bit `int`, with fewer
than `2^31` rows, all fetched and all with a denominator above 0, and for every
permutation of its rows, the function returns 0 on both; and the two balances are equal
whenever the `double` accumulator holds every sum exactly (the row values are multiples
of `2^(-g)` and their magnitudes add up to less than `2^(53-g)`), both being then the
exact sum of the `float` quotients. -/
theorem balance_order_independent_when_exact (con con' : Connection)
    (accnt_name guid guid' : String) (res res' : MysqlRes SplitRow) (balance balance' : ℚ)
    (hs : Serves con accnt_name guid res) (hs' : Serves con' accnt_name guid' res')
    (hperm : res.rows.Perm res'.rows) (hcnt : res.rows.length = res.num_rows)
    (hcnt' : res'.rows.length = res'.num_rows) (hfew : res.num_rows < 2147483648)
    (hfit : ∀ r ∈ res.rows, r.fitsInt) (hden : ∀ r ∈ res.rows, 0 < r.value_denom) :
    (gnc_get_account_balance con accnt_name balance).ret = 0 ∧
    (gnc_get_account_balance con' accnt_name balance').ret = 0 ∧
    (∀ g, SumsExact g res.rows →
      (gnc_get_account_balance con accnt_name balance).balance =
        (gnc_get_account_balance con' accnt_name balance').balance ∧
      (gnc_get_account_balance con accnt_name balance).balance =
        (res.rows.map fun r => floatQuot r.value_num r.value_denom).sum) := by
  have hden2 : ∀ r ∈ res.rows, 0 < r.denom := by
    intro r hr
    rw [(value_of_fitsInt r (hfit r hr)).2.1]
    exact hden r hr
  have hden2' : ∀ r ∈ res'.rows, 0 < r.denom :=
    fun r hr => hden2 r (hperm.mem_iff.mpr hr)
  have hfew' : res'.num_rows < 2147483648 := by
    rw [← hcnt', ← hperm.length_eq, hcnt]
    exact hfew
  have hmain := balance_of_positive_rows con accnt_name guid res balance hs hcnt hfew hden2
  have hmain' := balance_of_positive_rows con' accnt_name guid' res' balance' hs' hcnt'
    hfew' hden2'
  refine ⟨by rw [hmain], by rw [hmain'], ?_⟩
  intro g hg
  have hg' := SumsExact_perm g _ _ hperm hg
  have hz : Dyadic g 0 := ⟨0, by simp⟩
  have hsum : ∀ l : List SplitRow, SumsExact g l →
      accumulate 0 l = (l.map fun r => r.value).sum := by
    intro l hl
    have hs2 : (|(0 : ℚ)| + (l.map fun r => |r.value|).sum) * 2 ^ g < 2 ^ 53 := by
      rw [abs_zero, zero_add]
      exact hl.2
    rw [accumulate_exact g l 0 hz hl.1 hs2, zero_add]
  have hmap : (res.rows.map fun r => r.value) =
      (res.rows.map fun r => floatQuot r.value_num r.value_denom) := by
    apply List.map_congr_left
    intro r hr
    rw [(value_of_fitsInt r (hfit r hr)).2.2]
  rw [hmain, hmain']
  simp only
  rw [hsum _ hg, hsum _ hg', (hperm.map _).sum_eq, ← hmap, (hperm.map _).sum_eq]
  exact ⟨rfl, rfl⟩


/-- Witness of C10, amended: the entries (100,100), (250,100), (-50,100) and the same
with the first two swapped yield the same balance. -/
theorem balance_order_independent_when_exact_witness :
    (gnc_get_account_balance
      (ledgerOf ⟨3, [split 100 100, split 250 100, split (-50) 100]⟩) "Assets" 0).balance =
    (gnc_get_account_balance
      (ledgerOf ⟨3, [split 250 100, split 100 100, split (-50) 100]⟩) "Assets" 0).balance :=
  ((balance_order_independent_when_exact
    (ledgerOf ⟨3, [split 100 100, split 250 100, split (-50) 100]⟩)
    (ledgerOf ⟨3, [split 250 100, split 100 100, split (-50) 100]⟩) "Assets" "g" "g"
    ⟨3, [split 100 100, split 250 100, split (-50) 100]⟩
    ⟨3, [split 250 100, split 100 100, split (-50) 100]⟩ 0 0
    (ledgerOf_serves _) (ledgerOf_serves _) (List.Perm.swap _ _ _) (by simp) (by simp)
    (by norm_num) fits_sample denom_sample).2.2 1 sumsExact_sample).1

/-- C5, evaluated where the code departs from it.  The denominator 4294967296 is above
0, but stored in an `int` it is 0: the row is rejected as "Invalid denom (0)".  The
denominator -4294967295 is below 0, but stored in an `int` it is 1: the row is accepted
and the function returns 0. -/
theorem denom_narrowing :
    (0 : Int) < (split 1 4294967296).value_denom ∧
    gnc_get_account_balance (ledgerOf ⟨1, [split 1 4294967296]⟩) "Assets" 0 =
      { ret := -1, balance := 0, error := some (.invalidDenom 0 0 1) } ∧
    (split 1 (-4294967295)).value_denom ≤ 0 ∧
    (gnc_get_account_balance (ledgerOf ⟨1, [split 1 (-4294967295)]⟩) "Assets" 0).ret = 0 := by
  have hd1 : (split 1 4294967296).denom = 0 := by
    simp [SplitRow.denom, split, strtol, toInt32]
  have hd2 : (split 1 (-4294967295)).denom = 1 := by
    simp [SplitRow.denom, split, strtol, toInt32]
  have hn : (rowCntToInt 1).toNat = 1 := by
    rw [rowCntToInt_of_lt 1 (by norm_num)]; rfl
  refine ⟨by simp [split], ?_, by simp [split], ?_⟩
  · simp only [gnc_get_account_balance,
      computeBalance_of_serves _ "Assets" "g" _ (ledgerOf_serves _), hn, balanceLoop, hd1]
    simp
  · rw [balance_of_positive_rows _ "Assets" "g" _ 0 (ledgerOf_serves _) (by simp)
      (by norm_num) (by intro r hr; simp only [List.mem_singleton] at hr; rw [hr, hd2]; norm_num)]

/-- With no iteration left the loop ends with the accumulator. -/
theorem balanceLoop_zero (row_cnt : Nat) (i : Int) (cursor : List SplitRow) (bal : ℚ) :
    balanceLoop row_cnt 0 i cursor bal = .ok bal := by
  rw [balanceLoop]

/-- A reported row count of `2^31` becomes a negative loop bound: no row is fetched. -/
theorem balance_of_row_cnt_pow31 (rows : List SplitRow) (balance : ℚ) :
    gnc_get_account_balance (ledgerOf ⟨2147483648, rows⟩) "Assets" balance =
      { ret := 0, balance := 0, error := none } := by
  have hn : (rowCntToInt 2147483648).toNat = 0 := by
    simp [rowCntToInt, toInt32]
  have hc := computeBalance_of_serves (ledgerOf ⟨2147483648, rows⟩) "Assets" "g" _
    (ledgerOf_serves _)
  rw [hn, balanceLoop_zero] at hc
  rw [gnc_get_account_balance, hc]

/-- C9, evaluated where the code departs from it.  With `2^31` rows reported, the
function fetches no row, returns 0 and overwrites the caller's balance (here 7) with
0.0: both when the result delivers no row at all and when it delivers `2^31` rows with
denominator 0. -/
theorem row_count_narrowing :
    gnc_get_account_balance (ledgerOf ⟨2147483648, []⟩) "Assets" 7 =
      { ret := 0, balance := 0, error := none } ∧
    gnc_get_account_balance
        (ledgerOf ⟨2147483648, List.replicate 2147483648 (split 1 0)⟩) "Assets" 7 =
      { ret := 0, balance := 0, error := none } :=
  ⟨balance_of_row_cnt_pow31 _ _, balance_of_row_cnt_pow31 _ _⟩


/-! ## What holds next to C3, C5 and C9 -/

/-- When the loader reaches `fopen`, the file is regular, its size is in `[1, 1024)` and
no mode bit is set other than the owner-read bit and the file-type bits. -/
theorem fopen_only_after_checks (fs : String → FileState) (buffer : List Char)
    (path : String) (username passwd : Bool)
    (h : Syscall.fopen path ∈ (parse_credentials_file fs buffer (some path) username
      passwd).trace) :
    ∃ sb, (fs path).stat = some sb ∧ S_ISREG sb.st_mode = true ∧ 1 ≤ sb.st_size ∧
      sb.st_size < 1024 ∧ modeExtraBits sb.st_mode = 0 := by
  unfold parse_credentials_file at h
  cases hst : (fs path).stat with
  | none => simp [hst, CredOutcome.fail] at h
  | some sb =>
    simp only [hst] at h
    by_cases hts : (!S_ISREG sb.st_mode || decide (sb.st_size < 1) ||
        decide (sb.st_size ≥ 1024)) = true
    · simp [hts, CredOutcome.fail] at h
    · by_cases hm : modeExtraBits sb.st_mode ≠ 0
      · simp [hts, hm, CredOutcome.fail] at h
      · have hts2 : ¬ ((S_ISREG sb.st_mode = false ∨ sb.st_size < 1) ∨
            1024 ≤ sb.st_size) := by
          simpa using hts
        refine ⟨sb, rfl, ?_, ?_, ?_, ?_⟩
        · cases hreg : S_ISREG sb.st_mode
          · exact absurd (Or.inl (Or.inl hreg)) hts2
          · rfl
        · by_contra hlt
          exact hts2 (Or.inl (Or.inr (by omega)))
        · by_contra hge
          exact hts2 (Or.inr (by omega))
        · simpa using hm

/-- A failing call leaves the caller's balance as it was, and a call that returns 0
reports no error. -/
theorem balance_unchanged_on_failure (con : Connection) (accnt_name : String) (balance : ℚ) :
    ((gnc_get_account_balance con accnt_name balance).ret ≠ 0 →
      (gnc_get_account_balance con accnt_name balance).balance = balance) ∧
    ((gnc_get_account_balance con accnt_name balance).ret = 0 ∨
      (gnc_get_account_balance con accnt_name balance).ret = -1) := by
  unfold gnc_get_account_balance
  cases computeBalance con accnt_name with
  | ok bal => simp
  | error e => simp

/-- The loop on rows that start with valid ones followed by a row whose `denom` is not
above 0 stops at that row and reports its position. -/
theorem balanceLoop_first_bad (row_cnt : Nat) (pre : List SplitRow) (bad : SplitRow)
    (rest : List SplitRow) (todo : Nat) (i : Int) (bal : ℚ)
    (hpre : ∀ r ∈ pre, 0 < r.denom) (hbad : bad.denom ≤ 0) (htodo : pre.length < todo) :
    balanceLoop row_cnt todo i (pre ++ bad :: rest) bal =
      .error (.invalidDenom bad.denom (i + pre.length) row_cnt) := by
  induction pre generalizing todo i bal with
  | nil =>
    obtain ⟨t, rfl⟩ : ∃ t, todo = t + 1 := ⟨todo - 1, by simp at htodo; omega⟩
    simp [balanceLoop, hbad]
  | cons r rs ih =>
    obtain ⟨t, rfl⟩ : ∃ t, todo = t + 1 := ⟨todo - 1, by simp at htodo; omega⟩
    have hr : ¬ r.denom ≤ 0 := not_le.mpr (hpre r (by simp))
    simp only [List.cons_append, balanceLoop, hr, if_false]
    rw [ih t (i + 1) _ (fun x hx => hpre x (by simp [hx])) (by simp at htodo; omega)]
    simp only [List.length_cons]
    push_cast
    ring_nf

/-- The loop on fewer rows than iterations, all valid, stops at the end of the rows with
"Premature end to result data". -/
theorem balanceLoop_premature (row_cnt : Nat) (rows : List SplitRow) (todo : Nat) (i : Int)
    (bal : ℚ) (hden : ∀ r ∈ rows, 0 < r.denom) (htodo : rows.length < todo) :
    balanceLoop row_cnt todo i rows bal = .error (.prematureEnd (i + rows.length) row_cnt) := by
  induction rows generalizing todo i bal with
  | nil =>
    obtain ⟨t, rfl⟩ : ∃ t, todo = t + 1 := ⟨todo - 1, by simp at htodo; omega⟩
    simp [balanceLoop]
  | cons r rs ih =>
    obtain ⟨t, rfl⟩ : ∃ t, todo = t + 1 := ⟨todo - 1, by simp at htodo; omega⟩
    have hr : ¬ r.denom ≤ 0 := not_le.mpr (hden r (by simp))
    simp only [balanceLoop, hr, if_false]
    rw [ih t (i + 1) _ (fun x hx => hden x (by simp [hx])) (by simp at htodo; omega)]
    simp only [List.length_cons]
    push_cast
    ring_nf

end GncBalcheck
